import Mathlib

/-!
Verification of the storage layer of `tobilola/requiva` (`src/utils.py`).

The embedding models:
* pandas `DataFrame`s as `DFrame` (a column-name list plus rectangular rows of
  cells, where a cell is `Option String` and `none` is the pandas missing
  marker NaN);
* `_ensure_columns`, the firestore path of `load_orders` / `save_orders`,
  `gen_req_id`, `compute_total` and `validate_order` from `utils.py`;
* Python `float` values as exact rationals (`Qr`, an integer pair, since every
  IEEE binary64 value is rational), with binary64 rounding made explicit;
* the firestore remote store as a function from document key and field name to
  the stored value, with `set(..., merge=True)` semantics.
-/

namespace Requiva

/-- A cell of a dataframe: `none` is the missing-value marker (NaN). -/
abbrev Cell := Option String

/-- A pandas dataframe: named columns and rectangular rows of cells. -/
structure DFrame where
  cols : List String
  rows : List (List Cell)
deriving DecidableEq, Repr

/-- `REQUIRED_COLUMNS` from `utils.py` lines 9-13. -/
def REQUIRED_COLUMNS : List String :=
  ["REQ#", "ITEM", "NUMBER OF ITEM", "AMOUNT PER ITEM", "TOTAL",
   "VENDOR", "CAT #", "GRANT USED", "PO SOURCE", "PO #",
   "NOTES", "ORDERED BY", "DATE ORDERED", "DATE RECEIVED"]

/-- `df[col] = None` for each required column missing from `df`
(the loop in `_ensure_columns`, `utils.py` lines 80-82): the missing
columns are appended, every row gets `None` entries for them. -/
def addMissingCols (df : DFrame) : DFrame :=
  let missing := REQUIRED_COLUMNS.filter (fun c => !df.cols.contains c)
  { cols := df.cols ++ missing
    rows := df.rows.map (fun r => r ++ missing.map (fun _ => (none : Cell))) }

/-- Label-based cell lookup in a row (`row[col]`): the entry at the column's
index, `none` when the label is absent. -/
def cellAt (cols : List String) (row : List Cell) (c : String) : Cell :=
  match cols.indexOf? c with
  | some i => row.getD i none
  | none => none

/-- Column selection `df[cs]`: the frame restricted to the labels `cs`,
in that order. -/
def selectCols (df : DFrame) (cs : List String) : DFrame :=
  { cols := cs
    rows := df.rows.map (fun r => cs.map (fun c => cellAt df.cols r c)) }

/-- `_ensure_columns` (`utils.py` lines 79-83): add the missing canonical
columns as null, then take exactly `df[REQUIRED_COLUMNS]`. -/
def ensure_columns (df : DFrame) : DFrame :=
  selectCols (addMissingCols df) REQUIRED_COLUMNS

/-- A firestore document body: field name to value, `none` value = null. -/
abbrev Doc := List (String × Cell)

/-- `pd.DataFrame(rows)` for a list of dicts: columns in order of first
appearance, absent keys becoming NaN. -/
def dfOfDocs (docs : List Doc) : DFrame :=
  let cols := docs.foldl
    (fun acc d => acc ++ (d.map Prod.fst).filter (fun c => !acc.contains c)) []
  { cols := cols
    rows := docs.map (fun d => cols.map (fun c => (d.lookup c).join)) }

/-- The firestore branch of `load_orders` (`utils.py` lines 86-92), as a
function of the streamed documents: an empty frame with the canonical
columns when there are no documents, otherwise `_ensure_columns` of the
dataframe built from them. -/
def load_orders (docs : List Doc) : DFrame :=
  let df := dfOfDocs docs
  if df.rows.isEmpty then { cols := REQUIRED_COLUMNS, rows := [] }
  else ensure_columns df

/-- `str(...)` of a cell, as it happens on `row["REQ#"]` in `save_orders`
line 106: a missing value (NaN) stringifies to `"nan"`. -/
def strOfCell : Cell → String
  | some s => s
  | none => "nan"

/-- The writes performed by the firestore branch of `save_orders`
(`utils.py` lines 98-112) on a dataframe: the argument is copied and
normalized, then each row whose stringified `REQ#` is empty (falsy) or
`"nan"` is skipped, and every other row becomes one upsert of its full
field-to-value dict keyed by that string.  A NaN cell is sent as an
explicit firestore null (`None if pd.isna(v) else v`), which a cell of
`none` already denotes. -/
def save_orders_writes (df : DFrame) : List (String × Doc) :=
  let d := ensure_columns df
  d.rows.filterMap (fun row =>
    let req_id := strOfCell (cellAt d.cols row "REQ#")
    if req_id = "" || req_id = "nan" then none
    else some (req_id, d.cols.zip row))

/-- The remote collection: document key and field name to the stored value;
an outer `none` means the field is absent from the document. -/
def RemoteStore := String → String → Option Cell

/-- One `batch.set(col_ref.document(k), doc, merge=True)`: fields named in
`doc` are overwritten (an explicit null overwrites too), fields absent from
`doc` keep their prior value, other documents are untouched. -/
def applyWrite (st : RemoteStore) (w : String × Doc) : RemoteStore :=
  fun k f =>
    if k = w.1 then
      match w.2.lookup f with
      | some v => some v
      | none => st k f
    else st k f

/-- Committing a write batch: the writes applied in order. -/
def commitBatch (st : RemoteStore) (ws : List (String × Doc)) : RemoteStore :=
  ws.foldl applyWrite st

/-- The remote collection after the firestore branch of `save_orders`. -/
def save_orders_remote (st : RemoteStore) (df : DFrame) : RemoteStore :=
  commitBatch st (save_orders_writes df)

/-! ### A heap model for the in-place effects of `save_orders`

`_ensure_columns` mutates the frame it is handed (`df[col] = None` adds
columns in place), and `save_orders` line 99 applies it to `df.copy()`.
To talk about mutation at all, frames live in a heap (a list of frames)
and functions take references (indices). -/

/-- The heap of dataframe objects. -/
abbrev Heap := List DFrame

/-- `df.copy()`: allocate a fresh frame equal to the referenced one and
return a reference to it. -/
def dfCopy (h : Heap) (i : Nat) : Heap × Nat :=
  (h ++ [h.getD i { cols := [], rows := [] }], h.length)

/-- `_ensure_columns(df)` with its in-place effect: the referenced frame
gains the missing columns, and the selected view is returned as a value. -/
def ensure_columns_ref (h : Heap) (i : Nat) : Heap × DFrame :=
  let df := h.getD i { cols := [], rows := [] }
  (h.set i (addMissingCols df), ensure_columns df)

/-- `save_orders(df)` in the heap model: line 99 copies the argument and
normalizes the copy (rebinding the local name), so all in-place column
additions hit the copy; the returned writes are those of the firestore
branch. -/
def save_orders_ref (h : Heap) (i : Nat) : Heap × List (String × Doc) :=
  let hj := dfCopy h i
  let he := ensure_columns_ref hj.1 hj.2
  (he.1, save_orders_writes (h.getD i { cols := [], rows := [] }))

/-! ### `gen_req_id` (`utils.py` lines 117-123) -/

/-- `x.split("-")[-1]`: the suffix after the last `-` (the whole string
when there is no dash, empty when the string ends in a dash). -/
def lastSeg (s : String) : String :=
  ⟨(s.data.reverse.takeWhile (fun c => c ≠ '-')).reverse⟩

/-- Python `x.startswith(p)`. -/
def startswith (p x : String) : Bool :=
  p.data.isPrefixOf x.data

/-- Python `x.isdigit()` (for ASCII data): nonempty and all digits. -/
def isdigitStr (s : String) : Bool :=
  !s.data.isEmpty && s.data.all Char.isDigit

/-- `int(s)` for a digit string: its decimal value. -/
def digitsToNat (l : List Char) : Nat :=
  l.foldl (fun a c => a * 10 + (c.toNat - 48)) 0

/-- The decimal digits of a natural number, most significant first
(structural recursion on a fuel argument so that the kernel can
evaluate it; `natToDigits` supplies enough fuel). -/
def natToDigitsAux : Nat → Nat → List Char
  | 0, _ => []
  | fuel + 1, n =>
    if n < 10 then [Nat.digitChar n]
    else natToDigitsAux fuel (n / 10) ++ [Nat.digitChar (n % 10)]

/-- The decimal digits of a natural number (most significant first). -/
def natToDigits (n : Nat) : List Char := natToDigitsAux (n + 1) n

/-- Python `f"{n:04d}"` for a nonnegative `n`: the decimal digits,
left-padded with zeros to at least four characters. -/
def pad4 (n : Nat) : String :=
  let s := natToDigits n
  ⟨List.replicate (4 - s.length) '0' ++ s⟩

/-- The prefix `f"REQ-{year}-"`. -/
def reqPfx (year : String) : String := "REQ-" ++ year ++ "-"

/-- The `nums` list of `gen_req_id` line 121: the parsed suffixes of the
non-null `REQ#` values that start with the year prefix and have a digit
suffix. -/
def reqNums (year : String) (reqs : List (Option String)) : List Nat :=
  ((reqs.filterMap id).filter
      (fun x => startswith (reqPfx year) x && isdigitStr (lastSeg x))).map
    (fun x => digitsToNat (lastSeg x).data)

/-- `next_num` of `gen_req_id` line 122: `max(nums) + 1` when `nums` is
nonempty, else `1`. -/
def nextNum (year : String) (reqs : List (Option String)) : Nat :=
  let nums := reqNums year reqs
  if nums.isEmpty then 1 else nums.foldl Nat.max 0 + 1

/-- `gen_req_id` (`utils.py` lines 117-123), parameterized by the current
calendar year (`datetime.now().strftime("%Y")`) and by the `REQ#` column of
its dataframe argument (`df["REQ#"].dropna().astype(str).tolist()`: the
non-null entries; the claims only involve string-valued cells, on which
`astype(str)` is the identity). -/
def gen_req_id (year : String) (reqs : List (Option String)) : String :=
  reqPfx year ++ pad4 (nextNum year reqs)

/-! ### Python floats (`compute_total`, `utils.py` lines 125-129)

Every IEEE binary64 value is a rational number, so Python floats are
modelled by exact rationals, with the binary64 rounding of every
operation made explicit.  `Qr` is a raw fraction `num / den` (kept
unnormalized so that the kernel can evaluate all operations; the
arithmetic below only ever produces positive denominators).  The model
has an unbounded exponent range (no overflow or subnormal handling),
which is exact for all magnitudes appearing here. -/

/-- An exact rational `num / den`; `den` is kept positive by all the
operations used here. -/
structure Qr where
  num : Int
  den : Int
deriving DecidableEq, Repr

/-- Value equality of raw fractions: `a/b = c/d  ↔  a*d = c*b`. -/
def Qr.eqv (x y : Qr) : Prop := x.num * y.den = y.num * x.den

instance (x y : Qr) : Decidable (x.eqv y) := by
  unfold Qr.eqv; infer_instance

/-- `x < 0` (for the positive denominators maintained here). -/
def Qr.isNeg (x : Qr) : Bool := decide (x.num * x.den < 0)

/-- `⌊x⌋` for a positive denominator, via integer floor division. -/
def Qr.floor (x : Qr) : Int := Int.fdiv x.num x.den

/-- `x * 2^k` for an integer `k`. -/
def Qr.scale (x : Qr) (k : Int) : Qr :=
  if 0 ≤ k then ⟨x.num * 2 ^ k.toNat, x.den⟩ else ⟨x.num, x.den * 2 ^ (-k).toNat⟩

/-- Round a rational to the nearest integer, ties to even (the IEEE
default rounding, also used by Python's `round`). -/
def rndHalfEven (x : Qr) : Int :=
  let f := x.floor
  if 2 * (x.num - f * x.den) = x.den then (if f % 2 = 0 then f else f + 1)
  else Int.fdiv (2 * x.num + x.den) (2 * x.den)

/-- The number of binary digits of `n` (0 for 0), by structural fuel
recursion so the kernel can evaluate it. -/
def bitsAux : Nat → Nat → Nat
  | 0, _ => 0
  | fuel + 1, n => if n = 0 then 0 else bitsAux fuel (n / 2) + 1

/-- The number of binary digits of `n`. -/
def bits (n : Nat) : Nat := bitsAux n n

/-- Is `2^c ≤ a / d` (for `a d > 0`)? -/
def pow2Le (c : Int) (a d : Nat) : Bool :=
  if 0 ≤ c then d * 2 ^ c.toNat ≤ a else d ≤ a * 2 ^ (-c).toNat

/-- `⌊log₂ |x|⌋` for nonzero `x`: the unique `e` with `2^e ≤ |x| < 2^(e+1)`,
located from the binary lengths of numerator and denominator. -/
def Qr.ilog2 (x : Qr) : Int :=
  let a := x.num.natAbs
  let d := x.den.natAbs
  let c : Int := (bits a : Int) - (bits d : Int)
  if pow2Le c a d then c else c - 1

/-- Round an exact rational to the nearest IEEE binary64 value: 53
significand bits, round-to-nearest, ties to even. -/
def roundDouble (x : Qr) : Qr :=
  if x.num = 0 then ⟨0, 1⟩ else
    let e := x.ilog2
    let s := rndHalfEven (x.scale (52 - e))
    if 52 ≤ e then ⟨s * 2 ^ (e - 52).toNat, 1⟩ else ⟨s, 2 ^ (52 - e).toNat⟩

/-- The binary64 value of the decimal literal `m × 10⁻ᵏ` (what the Python
tokenizer produces for such a float literal). -/
def floatLit (m k : Nat) : Qr := roundDouble ⟨m, 10 ^ k⟩

/-- Binary64 multiplication: the exact product, rounded. -/
def fmul (a b : Qr) : Qr := roundDouble ⟨a.num * b.num, a.den * b.den⟩

/-- Python `round(x, 2)` on a float: the exact binary value rounded to the
nearest multiple of 1/100 (ties to even), converted back to binary64. -/
def pyRound2 (x : Qr) : Qr :=
  roundDouble ⟨rndHalfEven ⟨x.num * 100, x.den⟩, 100⟩

/-- A Python value handed to `compute_total` / `validate_order`:
a number (int or float, both exact rationals here), a string, or `None`. -/
inductive PyVal where
  | num (x : Qr)
  | str (s : String)
  | none_
deriving DecidableEq, Repr

/-- Parse an unsigned decimal-digit run; `none` when empty. -/
def parseDigitsQ (l : List Char) : Option Nat :=
  if l.isEmpty || !l.all Char.isDigit then none else some (digitsToNat l)

/-- Python `float(s)` for a plain decimal string (`digits` or
`digits.digits`, optional leading `-`): the nearest binary64 value;
`none` (a raised `ValueError`) otherwise.  Exotic accepted forms
(exponents, `inf`, `nan`, whitespace) are outside this model; the
inputs appearing in the claims are covered. -/
def parseFloatStr (s : String) : Option Qr :=
  let l := s.data
  let core := fun (l : List Char) =>
    match l.splitOn '.' with
    | [ds] => (parseDigitsQ ds).map (fun n => roundDouble ⟨n, 1⟩)
    | [ds, fs] =>
      (parseDigitsQ ds).bind (fun n =>
        (parseDigitsQ fs).map (fun f =>
          roundDouble ⟨n * 10 ^ fs.length + f, 10 ^ fs.length⟩))
    | _ => none
  match l with
  | '-' :: rest => (core rest).map (fun q => ⟨-q.num, q.den⟩)
  | _ => core l

/-- Python `float(v)` for a `PyVal`: numbers convert to themselves, strings
are parsed, `None` raises (`none` here). -/
def pyFloat : PyVal → Option Qr
  | .num x => some x
  | .str s => parseFloatStr s
  | .none_ => none

/-- `compute_total` (`utils.py` lines 125-129): `round(float(qty) *
float(unit_price), 2)`, and `0.0` when either conversion raises. -/
def compute_total (qty unit_price : PyVal) : Qr :=
  match pyFloat qty, pyFloat unit_price with
  | some q, some p => pyRound2 (fmul q p)
  | _, _ => ⟨0, 1⟩

/-! ### `validate_order` (`utils.py` lines 131-148) -/

/-- Python `s.strip()`: drop whitespace from both ends. -/
def stripStr (s : String) : String :=
  ⟨((s.data.dropWhile Char.isWhitespace).reverse.dropWhile
      Char.isWhitespace).reverse⟩

/-- Python truthiness of an optional string (`None` and `""` are falsy). -/
def truthyOpt : Option String → Bool
  | none => false
  | some s => s ≠ ""

/-- Python `str(...)` of an optional string (`str(None) = "None"`). -/
def strOfOpt : Option String → String
  | none => "None"
  | some s => s

/-- `validate_order` (`utils.py` lines 131-148): the checks in source
order, first failure winning; `item` and `vendor` are the string-or-null
arguments of the creation form, `qty` and `price` arbitrary values whose
`float(...)` conversion may raise.  Never raises: every failure is a
`(False, message)` value. -/
def validate_order (item : Option String) (qty price : PyVal)
    (vendor : Option String) : Bool × String :=
  if !truthyOpt item || stripStr (strOfOpt item) = "" then
    (false, "ITEM is required.")
  else
    match pyFloat qty with
    | none => (false, "NUMBER OF ITEM must be a number.")
    | some q =>
      if q.isNeg then (false, "NUMBER OF ITEM must be >= 0.")
      else
        match pyFloat price with
        | none => (false, "AMOUNT PER ITEM must be a number.")
        | some p =>
          if p.isNeg then (false, "AMOUNT PER ITEM must be >= 0.")
          else if !truthyOpt vendor || stripStr (strOfOpt vendor) = "" then
            (false, "VENDOR is required.")
          else (true, "")

/-! ## Helper lemmas: decimal digits -/

lemma digitChar_isDigit {d : Nat} (hd : d < 10) :
    (Nat.digitChar d).isDigit = true := by
  interval_cases d <;> decide

lemma digitChar_toNat {d : Nat} (hd : d < 10) :
    (Nat.digitChar d).toNat - 48 = d := by
  interval_cases d <;> decide

lemma natToDigitsAux_isDigit :
    ∀ fuel n, n < fuel → ∀ c ∈ natToDigitsAux fuel n, c.isDigit = true := by
  intro fuel
  induction fuel with
  | zero => omega
  | succ f ih =>
    intro n hn c hc
    by_cases h10 : n < 10
    · simp only [natToDigitsAux, if_pos h10] at hc
      simp only [List.mem_singleton] at hc
      subst hc
      exact digitChar_isDigit h10
    · simp only [natToDigitsAux, if_neg h10] at hc
      have hdiv : n / 10 < n := Nat.div_lt_self (by omega) (by omega)
      rcases List.mem_append.1 hc with h | h
      · exact ih (n / 10) (by omega) c h
      · simp only [List.mem_singleton] at h
        subst h
        exact digitChar_isDigit (Nat.mod_lt _ (by omega))

lemma natToDigitsAux_ne_nil :
    ∀ fuel n, n < fuel → natToDigitsAux fuel n ≠ [] := by
  intro fuel
  induction fuel with
  | zero => omega
  | succ f _ =>
    intro n _
    by_cases h10 : n < 10
    · simp [natToDigitsAux, if_pos h10]
    · simp [natToDigitsAux, if_neg h10]

lemma natToDigitsAux_foldl :
    ∀ fuel n a, n < fuel →
      (natToDigitsAux fuel n).foldl (fun acc c => acc * 10 + (c.toNat - 48)) a
        = a * 10 ^ (natToDigitsAux fuel n).length + n := by
  intro fuel
  induction fuel with
  | zero => omega
  | succ f ih =>
    intro n a hn
    by_cases h10 : n < 10
    · simp only [natToDigitsAux, if_pos h10, List.foldl_cons, List.foldl_nil,
        List.length_singleton, pow_one]
      rw [digitChar_toNat h10]
    · have hdiv : n / 10 < n := Nat.div_lt_self (by omega) (by omega)
      simp only [natToDigitsAux, if_neg h10]
      rw [List.foldl_append, ih (n / 10) a (by omega)]
      simp only [List.foldl_cons, List.foldl_nil, List.length_append,
        List.length_singleton]
      rw [digitChar_toNat (Nat.mod_lt _ (by omega)), pow_succ]
      have hdm : 10 * (n / 10) + n % 10 = n := Nat.div_add_mod n 10
      set t := (10 : Nat) ^ (natToDigitsAux f (n / 10)).length with ht
      calc (a * t + n / 10) * 10 + n % 10
          = a * (t * 10) + (10 * (n / 10) + n % 10) := by ring
        _ = a * (t * 10) + n := by rw [hdm]

lemma natToDigitsAux_lt :
    ∀ fuel n, n < fuel → n < 10 ^ (natToDigitsAux fuel n).length := by
  intro fuel
  induction fuel with
  | zero => omega
  | succ f ih =>
    intro n hn
    by_cases h10 : n < 10
    · simpa [natToDigitsAux, if_pos h10] using h10
    · have hdiv : n / 10 < n := Nat.div_lt_self (by omega) (by omega)
      have h := ih (n / 10) (by omega)
      simp only [natToDigitsAux, if_neg h10, List.length_append,
        List.length_singleton, pow_succ]
      set t := (10 : Nat) ^ (natToDigitsAux f (n / 10)).length with ht
      omega

lemma digitsToNat_natToDigits (n : Nat) : digitsToNat (natToDigits n) = n := by
  have h := natToDigitsAux_foldl (n + 1) n 0 (by omega)
  simpa [digitsToNat, natToDigits] using h

lemma natToDigits_isDigit {n : Nat} : ∀ c ∈ natToDigits n, c.isDigit = true :=
  natToDigitsAux_isDigit (n + 1) n (by omega)

lemma natToDigits_ne_nil (n : Nat) : natToDigits n ≠ [] :=
  natToDigitsAux_ne_nil (n + 1) n (by omega)

lemma natToDigits_lt (n : Nat) : n < 10 ^ (natToDigits n).length :=
  natToDigitsAux_lt (n + 1) n (by omega)

lemma isDigit_ne_dash {c : Char} (h : c.isDigit = true) : c ≠ '-' := by
  intro hc
  subst hc
  simp at h

/-! ## Helper lemmas: `pad4` -/

lemma pad4_data (n : Nat) :
    (pad4 n).data
      = List.replicate (4 - (natToDigits n).length) '0' ++ natToDigits n :=
  rfl

lemma pad4_isdigit (n : Nat) : ∀ c ∈ (pad4 n).data, c.isDigit = true := by
  intro c hc
  rw [pad4_data] at hc
  rcases List.mem_append.1 hc with h | h
  · rw [List.eq_of_mem_replicate h]; decide
  · exact natToDigits_isDigit c h

lemma pad4_data_ne_nil (n : Nat) : (pad4 n).data ≠ [] := by
  rw [pad4_data]
  intro h
  exact natToDigits_ne_nil n (List.append_eq_nil.1 h).2

lemma isdigitStr_pad4 (n : Nat) : isdigitStr (pad4 n) = true := by
  have hemp : (pad4 n).data.isEmpty = false := by
    cases h : (pad4 n).data
    · exact absurd h (pad4_data_ne_nil n)
    · rfl
  simp only [isdigitStr, hemp, Bool.not_false, Bool.true_and, List.all_eq_true]
  exact fun c hc => pad4_isdigit n c hc

lemma foldl_digits_replicate_zero (k : Nat) :
    (List.replicate k '0').foldl (fun acc c => acc * 10 + (c.toNat - 48)) 0 = 0 := by
  induction k with
  | zero => rfl
  | succ m ih => simpa [List.replicate_succ] using ih

lemma digitsToNat_pad4 (n : Nat) : digitsToNat (pad4 n).data = n := by
  rw [pad4_data]
  unfold digitsToNat
  rw [List.foldl_append, foldl_digits_replicate_zero]
  exact digitsToNat_natToDigits n

lemma pad4_wide {n : Nat} (h : 10000 ≤ n) : pad4 n = ⟨natToDigits n⟩ := by
  have hlt := natToDigits_lt n
  have hlen : 4 < (natToDigits n).length := by
    by_contra hle
    have : 10 ^ (natToDigits n).length ≤ 10 ^ 4 :=
      Nat.pow_le_pow_right (by omega) (by omega)
    omega
  unfold pad4
  have h0 : 4 - (natToDigits n).length = 0 := by omega
  simp [h0]

/-! ## Helper lemmas: `lastSeg` and `startswith` -/

lemma lastSeg_append_pfx (p : String) (t : List Char)
    (ht : ∀ c ∈ t, c ≠ '-') :
    lastSeg ((p ++ "-") ++ ⟨t⟩) = ⟨t⟩ := by
  unfold lastSeg
  have hdata : ((p ++ "-") ++ (⟨t⟩ : String)).data = (p.data ++ ['-']) ++ t := by
    simp [String.data_append]
  rw [hdata]
  rw [show ((p.data ++ ['-']) ++ t).reverse = t.reverse ++ ('-' :: p.data.reverse) from by
    simp]
  rw [List.takeWhile_append_of_pos
    (by intro a ha; simpa using ht a (List.mem_reverse.1 ha))]
  rw [List.takeWhile_cons_of_neg (by simp)]
  simp

lemma startswith_append (p t : String) : startswith p (p ++ t) = true := by
  simp only [startswith, String.data_append, List.isPrefixOf_iff_prefix]
  exact List.prefix_append _ _

lemma lastSeg_req (year : String) (n : Nat) :
    lastSeg (reqPfx year ++ pad4 n) = pad4 n :=
  lastSeg_append_pfx ("REQ-" ++ year) (pad4 n).data
    (fun c hc => isDigit_ne_dash (pad4_isdigit n c hc))

/-! ## Helper lemmas: `foldl Nat.max` -/

lemma foldl_max_init_le : ∀ (l : List Nat) (b : Nat), b ≤ l.foldl Nat.max b := by
  intro l
  induction l with
  | nil => intro b; simp
  | cons z zs ih =>
    intro b
    rw [List.foldl_cons]
    exact le_trans (Nat.le_max_left b z) (ih _)

lemma le_foldl_max : ∀ (l : List Nat) (a x : Nat), x ∈ l → x ≤ l.foldl Nat.max a := by
  intro l
  induction l with
  | nil => intro a x hx; simp at hx
  | cons y ys ih =>
    intro a x hx
    rcases List.mem_cons.1 hx with rfl | hx
    · rw [List.foldl_cons]
      exact le_trans (Nat.le_max_right a x) (foldl_max_init_le _ _)
    · rw [List.foldl_cons]
      exact ih _ x hx

lemma foldl_max_mem : ∀ (l : List Nat) (a : Nat),
    l.foldl Nat.max a = a ∨ l.foldl Nat.max a ∈ l := by
  intro l
  induction l with
  | nil => intro a; left; rfl
  | cons y ys ih =>
    intro a
    rw [List.foldl_cons]
    rcases ih (Nat.max a y) with h | h
    · have hm : Nat.max a y = a ∨ Nat.max a y = y := max_choice a y
      rcases hm with hm | hm
      · left; rw [h, hm]
      · right; exact List.mem_cons.2 (Or.inl (by rw [h, hm]))
    · right; exact List.mem_cons.2 (Or.inr h)

/-! ## Claim theorems: `gen_req_id` (C1, C2, C9) -/

/-- Claim C1: `gen_req_id` returns the year prefix followed by one plus the
maximum parsed suffix (the maximum is attained on the parsed list), or 1
when nothing matches, zero-padded to 4 digits; numbers ≥ 10000 simply print
all their digits (no error, no wraparound); and on a batch holding
`REQ-2025-0001` and `REQ-2025-0007` in year 2025 it returns
`REQ-2025-0008`. -/
theorem gen_req_id_spec :
    (∀ year reqs, gen_req_id year reqs = reqPfx year ++ pad4 (nextNum year reqs))
    ∧ (∀ year reqs, reqNums year reqs = [] → nextNum year reqs = 1)
    ∧ (∀ year reqs, reqNums year reqs ≠ [] →
        ∃ m, m ∈ reqNums year reqs ∧ (∀ x ∈ reqNums year reqs, x ≤ m) ∧
          nextNum year reqs = m + 1)
    ∧ (∀ year reqs, 10000 ≤ nextNum year reqs →
        gen_req_id year reqs = reqPfx year ++ ⟨natToDigits (nextNum year reqs)⟩)
    ∧ gen_req_id "2025" [some "REQ-2025-0001", some "REQ-2025-0007"]
        = "REQ-2025-0008" := by
  refine ⟨fun year reqs => rfl, ?_, ?_, ?_, by decide⟩
  · intro year reqs h
    simp [nextNum, h]
  · intro year reqs h
    have hne : (reqNums year reqs).isEmpty = false := by
      cases hx : reqNums year reqs
      · exact absurd hx h
      · rfl
    refine ⟨(reqNums year reqs).foldl Nat.max 0, ?_,
      fun x hx => le_foldl_max _ 0 x hx, by simp [nextNum, hne]⟩
    rcases foldl_max_mem (reqNums year reqs) 0 with h0 | hmem
    · rw [h0]
      rcases hx : reqNums year reqs with _ | ⟨x, xs⟩
      · exact absurd hx h
      · have hmem' : x ∈ reqNums year reqs := by
          rw [hx]; exact List.mem_cons_self _ _
        have hx0 : x ≤ 0 := by
          have := le_foldl_max (reqNums year reqs) 0 x hmem'
          omega
        have hx00 : (0 : Nat) = x := by omega
        rw [hx00]
        exact List.mem_cons_self _ _
    · exact hmem
  · intro year reqs h
    rw [gen_req_id, pad4_wide h]

/-- Claim C1 witness: the padding widens at 10000 on a concrete batch. -/
theorem gen_req_id_spec_witness :
    gen_req_id "2025" [some "REQ-2025-9999"]
      = reqPfx "2025" ++ ⟨natToDigits (nextNum "2025" [some "REQ-2025-9999"])⟩ :=
  gen_req_id_spec.2.2.2.1 "2025" [some "REQ-2025-9999"] (by decide)

/-- Claim C2: only non-null values starting with the year prefix whose
suffix after the last dash is a digit run are counted: a null entry or any
non-matching value anywhere in the batch leaves the result unchanged; only
`REQ-2024-0099` in year 2025 gives `REQ-2025-0001`; and
`["REQ-2025-0003", "garbage", null, "REQ-2025-abc"]` gives
`REQ-2025-0004`. -/
theorem gen_req_id_counts :
    gen_req_id "2025" [some "REQ-2024-0099"] = "REQ-2025-0001"
    ∧ gen_req_id "2025"
        [some "REQ-2025-0003", some "garbage", none, some "REQ-2025-abc"]
        = "REQ-2025-0004"
    ∧ (∀ year reqs1 reqs2,
        gen_req_id year (reqs1 ++ none :: reqs2) = gen_req_id year (reqs1 ++ reqs2))
    ∧ (∀ year v reqs1 reqs2,
        (startswith (reqPfx year) v && isdigitStr (lastSeg v)) = false →
          gen_req_id year (reqs1 ++ some v :: reqs2)
            = gen_req_id year (reqs1 ++ reqs2)) := by
  refine ⟨by decide, by decide, ?_, ?_⟩
  · intro year reqs1 reqs2
    have h : reqNums year (reqs1 ++ none :: reqs2) = reqNums year (reqs1 ++ reqs2) := by
      simp [reqNums]
    simp only [gen_req_id, nextNum, h]
  · intro year v reqs1 reqs2 hv
    have h : reqNums year (reqs1 ++ some v :: reqs2) = reqNums year (reqs1 ++ reqs2) := by
      simp [reqNums, hv]
    simp only [gen_req_id, nextNum, h]

/-- Claim C2 witness: a malformed entry in the middle of a batch is
ignored. -/
theorem gen_req_id_counts_witness :
    gen_req_id "2025" ([some "REQ-2025-0003"] ++ some "REQ-2025-abc" :: [])
      = gen_req_id "2025" ([some "REQ-2025-0003"] ++ []) :=
  gen_req_id_counts.2.2.2 "2025" "REQ-2025-abc" [some "REQ-2025-0003"] []
    (by decide)

/-- Claim C9: the generated id is fresh: every parsed same-year suffix is
strictly below the new sequence number, and the returned string differs
from every non-null `REQ#` value present in the batch. -/
theorem gen_req_id_fresh : ∀ year reqs,
    (∀ n ∈ reqNums year reqs, n < nextNum year reqs)
    ∧ (∀ v, some v ∈ reqs → gen_req_id year reqs ≠ v) := by
  intro year reqs
  have hlt : ∀ n ∈ reqNums year reqs, n < nextNum year reqs := by
    intro n hn
    have hne : (reqNums year reqs).isEmpty = false := by
      cases h : reqNums year reqs
      · rw [h] at hn; simp at hn
      · rfl
    have := le_foldl_max (reqNums year reqs) 0 n hn
    simp only [nextNum, hne, Bool.false_eq_true, if_false]
    omega
  refine ⟨hlt, ?_⟩
  intro v hv heq
  simp only [gen_req_id] at heq
  set nn := nextNum year reqs with hnn
  have hvmem : v ∈ reqs.filterMap id := List.mem_filterMap.2 ⟨some v, hv, rfl⟩
  have hstart : startswith (reqPfx year) v = true := by
    rw [← heq]; exact startswith_append _ _
  have hlast : lastSeg v = pad4 nn := by
    rw [← heq]; exact lastSeg_req year nn
  have hdig : isdigitStr (lastSeg v) = true := by
    rw [hlast]; exact isdigitStr_pad4 nn
  have hfil : v ∈ (reqs.filterMap id).filter
      (fun x => startswith (reqPfx year) x && isdigitStr (lastSeg x)) :=
    List.mem_filter.2 ⟨hvmem, by simp [hstart, hdig]⟩
  have hnum : nn ∈ reqNums year reqs := by
    have hm : digitsToNat (lastSeg v).data ∈ reqNums year reqs :=
      List.mem_map.2 ⟨v, hfil, rfl⟩
    rwa [hlast, digitsToNat_pad4] at hm
  exact absurd (hlt nn hnum) (lt_irrefl nn)

/-- Claim C9 witness: on a concrete batch the generated id differs from the
existing entry. -/
theorem gen_req_id_fresh_witness :
    gen_req_id "2025" [some "REQ-2025-0001"] ≠ "REQ-2025-0001" :=
  (gen_req_id_fresh "2025" [some "REQ-2025-0001"]).2 "REQ-2025-0001"
    (by decide)

/-! ## Helper lemmas: `indexOf?` and `getD` -/

lemma contains_iff (l : List String) (c : String) : l.contains c = true ↔ c ∈ l :=
  List.elem_iff

lemma indexOf?_mem :
    ∀ (l : List String) (c : String), c ∈ l →
      ∃ j, l.indexOf? c = some j ∧ j < l.length ∧ l.getD j "" = c := by
  intro l
  induction l with
  | nil => simp
  | cons x xs ih =>
    intro c hc
    by_cases hx : (x == c) = true
    · refine ⟨0, by rw [List.indexOf?_cons, if_pos hx], by simp, ?_⟩
      simpa using (eq_of_beq hx)
    · have hcx : c ∈ xs := by
        rcases List.mem_cons.1 hc with rfl | h
        · exact absurd (by simp) hx
        · exact h
      obtain ⟨j, hj, hjl, hjg⟩ := ih c hcx
      refine ⟨j + 1, ?_, by simp; omega, by simpa using hjg⟩
      rw [List.indexOf?_cons, if_neg hx, hj]
      rfl

lemma indexOf?_append_of_mem :
    ∀ (l1 l2 : List String) (c : String), c ∈ l1 →
      (l1 ++ l2).indexOf? c = l1.indexOf? c := by
  intro l1
  induction l1 with
  | nil => simp
  | cons x xs ih =>
    intro l2 c hc
    rw [List.cons_append, List.indexOf?_cons, List.indexOf?_cons]
    by_cases hx : (x == c) = true
    · rw [if_pos hx, if_pos hx]
    · rw [if_neg hx, if_neg hx]
      have hcx : c ∈ xs := by
        rcases List.mem_cons.1 hc with rfl | h
        · exact absurd (by simp) hx
        · exact h
      rw [ih l2 c hcx]

lemma indexOf?_append_of_not_mem :
    ∀ (l1 l2 : List String) (c : String), c ∉ l1 →
      (l1 ++ l2).indexOf? c = (l2.indexOf? c).map (fun j => l1.length + j) := by
  intro l1
  induction l1 with
  | nil =>
    intro l2 c _
    cases h : l2.indexOf? c <;> simp [h]
  | cons x xs ih =>
    intro l2 c hc
    have hxc : x ≠ c := fun h => hc (List.mem_cons.2 (Or.inl h.symm))
    rw [List.cons_append, List.indexOf?_cons,
      if_neg (by simpa using hxc),
      ih l2 c (fun h => hc (List.mem_cons.2 (Or.inr h)))]
    cases h : l2.indexOf? c
    · simp [h]
    · simp [h]
      omega

lemma getD_append_lt {α : Type} (l1 l2 : List α) (d : α) (i : Nat)
    (h : i < l1.length) : (l1 ++ l2).getD i d = l1.getD i d := by
  rw [List.getD_eq_getElem?_getD, List.getD_eq_getElem?_getD,
    List.getElem?_append_left h]

lemma getD_append_replicate_none (row : List Cell) (m i : Nat)
    (h : row.length ≤ i) :
    (row ++ List.replicate m (none : Cell)).getD i none = none := by
  rw [List.getD_eq_getElem?_getD, List.getElem?_append_right h,
    List.getElem?_replicate]
  split <;> rfl

/-! ## Claim theorems: normalization (C3, C4) -/

/-- The row produced by `_ensure_columns` from an input row of `df`:
every canonical column looked up in the row extended by the appended
null columns. -/
def normRow (df : DFrame) (row : List Cell) : List Cell :=
  REQUIRED_COLUMNS.map (fun c => cellAt (addMissingCols df).cols
    (row ++ (REQUIRED_COLUMNS.filter
      (fun c2 => !df.cols.contains c2)).map (fun _ => (none : Cell))) c)

lemma ensure_columns_rows (df : DFrame) :
    (ensure_columns df).rows = df.rows.map (normRow df) := by
  simp only [ensure_columns, selectCols, addMissingCols, normRow, List.map_map]
  rfl

lemma RC_indexOf_getElem :
    ∀ i (h : i < REQUIRED_COLUMNS.length),
      REQUIRED_COLUMNS.indexOf? (REQUIRED_COLUMNS[i]) = some i := by
  intro i h
  have h14 : i < 14 := by simpa [REQUIRED_COLUMNS] using h
  interval_cases i <;> rfl

lemma selectRow_id (r : List Cell) (hr : r.length = REQUIRED_COLUMNS.length) :
    REQUIRED_COLUMNS.map (fun c => cellAt REQUIRED_COLUMNS r c) = r := by
  apply List.ext_getElem
  · simp [hr]
  · intro i h1 h2
    rw [List.getElem_map]
    have hi : i < REQUIRED_COLUMNS.length := by simpa using h1
    simp only [cellAt, RC_indexOf_getElem i hi]
    rw [List.getD_eq_getElem?_getD, List.getElem?_eq_getElem h2]
    rfl

/-- Claim C3: normalization produces exactly the canonical columns in
canonical order; each output row is the canonical-length lookup row, where
a canonical column present in the input keeps its value and an absent one
is null; zero input rows give the empty frame that still carries the
canonical columns (also through the firestore load path on no
documents). -/
theorem ensure_columns_schema : ∀ df : DFrame,
    (ensure_columns df).cols = REQUIRED_COLUMNS
    ∧ (ensure_columns df).rows = df.rows.map (normRow df)
    ∧ (∀ r ∈ (ensure_columns df).rows, r.length = REQUIRED_COLUMNS.length)
    ∧ (∀ row : List Cell, row.length = df.cols.length →
        ∀ c ∈ REQUIRED_COLUMNS,
          cellAt REQUIRED_COLUMNS (normRow df row) c
            = if df.cols.contains c then cellAt df.cols row c else none)
    ∧ (df.rows = [] → ensure_columns df = { cols := REQUIRED_COLUMNS, rows := [] })
    ∧ load_orders [] = { cols := REQUIRED_COLUMNS, rows := [] } := by
  intro df
  refine ⟨rfl, ensure_columns_rows df, ?_, ?_, ?_, rfl⟩
  · intro r hr
    rw [ensure_columns_rows] at hr
    obtain ⟨r0, _, rfl⟩ := List.mem_map.1 hr
    simp [normRow]
  · intro row hlen c hc
    obtain ⟨j, hj, hjlt, hjget⟩ := indexOf?_mem REQUIRED_COLUMNS c hc
    have hgetj : REQUIRED_COLUMNS[j] = c := by
      rw [← hjget, List.getD_eq_getElem?_getD, List.getElem?_eq_getElem hjlt]
      rfl
    have houter : cellAt REQUIRED_COLUMNS (normRow df row) c
        = cellAt (addMissingCols df).cols
            (row ++ (REQUIRED_COLUMNS.filter
              (fun c2 => !df.cols.contains c2)).map (fun _ => (none : Cell))) c := by
      simp only [cellAt, normRow, hj]
      rw [List.getD_eq_getElem?_getD, List.getElem?_map,
        List.getElem?_eq_getElem hjlt]
      rw [hgetj]
      rfl
    rw [houter]
    by_cases hmem : c ∈ df.cols
    · rw [if_pos ((contains_iff _ _).2 hmem)]
      simp only [cellAt, addMissingCols]
      rw [indexOf?_append_of_mem df.cols _ c hmem]
      obtain ⟨j2, hj2, hj2lt, _⟩ := indexOf?_mem df.cols c hmem
      simp only [hj2]
      exact getD_append_lt _ _ _ _ (by omega)
    · have hcont : df.cols.contains c = false := by
        rcases h : df.cols.contains c
        · rfl
        · exact absurd ((contains_iff _ _).1 h) hmem
      rw [if_neg (by simpa using hmem)]
      have hcmiss : c ∈ REQUIRED_COLUMNS.filter (fun c2 => !df.cols.contains c2) :=
        List.mem_filter.2 ⟨hc, by simpa using hmem⟩
      simp only [cellAt, addMissingCols]
      rw [indexOf?_append_of_not_mem df.cols _ c hmem]
      obtain ⟨j2, hj2, hj2lt, _⟩ :=
        indexOf?_mem (REQUIRED_COLUMNS.filter (fun c2 => !df.cols.contains c2)) c hcmiss
      simp only [hj2, Option.map_some']
      rw [List.map_const']
      exact getD_append_replicate_none row _ _ (by omega)
  · intro h
    simp [ensure_columns, selectCols, addMissingCols, h]

/-- Claim C3 witness: a concrete frame with one extra and one canonical
column normalizes as stated. -/
theorem ensure_columns_schema_witness :
    cellAt REQUIRED_COLUMNS
        (normRow { cols := ["ITEM", "JUNK"], rows := [[some "Tubes", some "x"]] }
          [some "Tubes", some "x"]) "ITEM"
      = (if (["ITEM", "JUNK"] : List String).contains "ITEM" = true then
          cellAt ["ITEM", "JUNK"] [some "Tubes", some "x"] "ITEM" else none) :=
  ((ensure_columns_schema
      { cols := ["ITEM", "JUNK"], rows := [[some "Tubes", some "x"]] }).2.2.2.1
    [some "Tubes", some "x"] (by decide) "ITEM" (by decide))

/-- Claim C4: normalization is idempotent. -/
theorem ensure_columns_idempotent :
    ∀ df : DFrame, ensure_columns (ensure_columns df) = ensure_columns df := by
  intro df
  have hmiss : REQUIRED_COLUMNS.filter
      (fun c => !REQUIRED_COLUMNS.contains c) = [] := by decide
  have hrows : ∀ r ∈ (ensure_columns df).rows, r.length = REQUIRED_COLUMNS.length := by
    intro r hr
    rw [ensure_columns_rows] at hr
    obtain ⟨r0, _, rfl⟩ := List.mem_map.1 hr
    simp [normRow]
  have hadd : addMissingCols (ensure_columns df)
      = { cols := REQUIRED_COLUMNS, rows := (ensure_columns df).rows } := by
    simp only [addMissingCols]
    rw [show (ensure_columns df).cols = REQUIRED_COLUMNS from rfl, hmiss]
    simp
  show selectCols (addMissingCols (ensure_columns df)) REQUIRED_COLUMNS
      = ensure_columns df
  rw [hadd]
  simp only [selectCols]
  have hmap : (ensure_columns df).rows.map
      (fun r => REQUIRED_COLUMNS.map (fun c => cellAt REQUIRED_COLUMNS r c))
      = (ensure_columns df).rows := by
    conv_rhs => rw [← List.map_id ((ensure_columns df).rows)]
    apply List.map_congr_left
    intro r hr
    exact selectRow_id r (hrows r hr)
  rw [hmap]
  rfl

/-! ## Helper lemmas: the remote save path -/

/-- The document key `str(row["REQ#"])` taken by `save_orders`. -/
def reqKey (cols : List String) (row : List Cell) : String :=
  strOfCell (cellAt cols row "REQ#")

lemma filterMap_ite {α β : Type} (p : α → Bool) (g : α → β) (l : List α) :
    (l.filterMap (fun x => if p x then none else some (g x)))
      = (l.filter (fun x => !p x)).map g := by
  induction l with
  | nil => rfl
  | cons x xs ih =>
    by_cases h : p x = true
    · simp [List.filterMap_cons, List.filter_cons, h, ih]
    · simp [List.filterMap_cons, List.filter_cons, h, ih]

lemma save_orders_writes_eq (df : DFrame) :
    save_orders_writes df
      = ((ensure_columns df).rows.filter (fun row =>
          !(reqKey (ensure_columns df).cols row = ""
            || reqKey (ensure_columns df).cols row = "nan"))).map
        (fun row => (reqKey (ensure_columns df).cols row,
          (ensure_columns df).cols.zip row)) := by
  rw [show save_orders_writes df
      = (ensure_columns df).rows.filterMap (fun row =>
          if (reqKey (ensure_columns df).cols row = ""
              || reqKey (ensure_columns df).cols row = "nan") then none
          else some (reqKey (ensure_columns df).cols row,
            (ensure_columns df).cols.zip row)) from rfl]
  exact filterMap_ite _ _ _

lemma ensure_rows_len (df : DFrame) :
    ∀ r ∈ (ensure_columns df).rows, r.length = REQUIRED_COLUMNS.length := by
  intro r hr
  rw [ensure_columns_rows] at hr
  obtain ⟨r0, _, rfl⟩ := List.mem_map.1 hr
  simp [normRow]

lemma save_writes_mem {df : DFrame} {w : String × Doc}
    (hw : w ∈ save_orders_writes df) :
    ∃ row ∈ (ensure_columns df).rows,
      w = (reqKey (ensure_columns df).cols row, (ensure_columns df).cols.zip row)
      ∧ reqKey (ensure_columns df).cols row ≠ ""
      ∧ reqKey (ensure_columns df).cols row ≠ "nan" := by
  rw [save_orders_writes_eq] at hw
  obtain ⟨row, hrow, rfl⟩ := List.mem_map.1 hw
  have hcond := (List.mem_filter.1 hrow).2
  simp only [Bool.not_eq_true', Bool.or_eq_false_iff, decide_eq_false_iff_not] at hcond
  exact ⟨row, (List.mem_filter.1 hrow).1, rfl, hcond.1, hcond.2⟩

lemma lookup_zip_isSome :
    ∀ (cols : List String) (row : List Cell) (c : String),
      c ∈ cols → cols.length = row.length →
        ∃ v, (cols.zip row).lookup c = some v := by
  intro cols
  induction cols with
  | nil => simp
  | cons x xs ih =>
    intro row c hc hlen
    cases row with
    | nil => simp at hlen
    | cons y ys =>
      by_cases hx : (c == x) = true
      · exact ⟨y, by simp [List.zip_cons_cons, List.lookup, hx]⟩
      · have hcx : c ∈ xs := by
          rcases List.mem_cons.1 hc with rfl | h
          · exact absurd (by simp) hx
          · exact h
        obtain ⟨v, hv⟩ := ih ys c hcx (by simpa using hlen)
        exact ⟨v, by simp [List.zip_cons_cons, List.lookup, hx]; exact hv⟩

lemma save_writes_doc_cols (df : DFrame) :
    ∀ w ∈ save_orders_writes df, w.2.map Prod.fst = REQUIRED_COLUMNS := by
  intro w hw
  obtain ⟨row, hrow, rfl, -, -⟩ := save_writes_mem hw
  have hlen := ensure_rows_len df row hrow
  exact List.map_fst_zip _ _ (by rw [hlen]; exact Nat.le_refl _)

lemma save_writes_lookup (df : DFrame) :
    ∀ w ∈ save_orders_writes df, ∀ c ∈ REQUIRED_COLUMNS,
      (w.2.lookup c).isSome = true := by
  intro w hw c hc
  obtain ⟨row, hrow, rfl, -, -⟩ := save_writes_mem hw
  have hlen := ensure_rows_len df row hrow
  obtain ⟨v, hv⟩ := lookup_zip_isSome (ensure_columns df).cols row c hc hlen.symm
  simp [hv]

lemma commitBatch_not_mem :
    ∀ (ws : List (String × Doc)) (st : RemoteStore) (k f : String),
      k ∉ ws.map Prod.fst → commitBatch st ws k f = st k f := by
  intro ws
  induction ws with
  | nil => intro st k f _; rfl
  | cons w rest ih =>
    intro st k f hk
    simp only [List.map_cons, List.mem_cons, not_or] at hk
    show commitBatch (applyWrite st w) rest k f = st k f
    rw [ih _ k f hk.2]
    simp [applyWrite, hk.1]

lemma commitBatch_full :
    ∀ (ws : List (String × Doc)) (st st2 : RemoteStore) (k f : String),
      (∀ w ∈ ws, (w.2.lookup f).isSome = true) → k ∈ ws.map Prod.fst →
        commitBatch st ws k f = commitBatch st2 ws k f
        ∧ (commitBatch st ws k f).isSome = true := by
  intro ws
  induction ws with
  | nil => intro st st2 k f _ hk; simp at hk
  | cons w rest ih =>
    intro st st2 k f hall hk
    change commitBatch (applyWrite st w) rest k f
          = commitBatch (applyWrite st2 w) rest k f
        ∧ (commitBatch (applyWrite st w) rest k f).isSome = true
    by_cases hkrest : k ∈ rest.map Prod.fst
    · exact ih _ _ k f (fun w2 hw2 => hall w2 (List.mem_cons_of_mem _ hw2)) hkrest
    · rw [commitBatch_not_mem rest (applyWrite st w) k f hkrest,
        commitBatch_not_mem rest (applyWrite st2 w) k f hkrest]
      have hk1 : k = w.1 := by
        simp only [List.map_cons, List.mem_cons] at hk
        rcases hk with h | h
        · exact h
        · exact absurd h hkrest
      obtain ⟨v, hv⟩ :=
        Option.isSome_iff_exists.1 (hall w (List.mem_cons_self _ _))
      constructor
      · simp [applyWrite, hk1, hv]
      · simp [applyWrite, hk1, hv]

/-! ## Claim theorems: the remote save path (C7, C8) -/

/-- Claim C7: on the remote path, a normalized row whose `REQ#` stringifies
to the empty string or to `"nan"` (in particular a null/NaN `REQ#`)
produces no write, without raising; every other row is upserted keyed by
its `REQ#` string.  The write list is exactly the good rows, in order. -/
theorem save_orders_skips : ∀ df : DFrame,
    (∀ w ∈ save_orders_writes df, w.1 ≠ "" ∧ w.1 ≠ "nan")
    ∧ (∀ row ∈ (ensure_columns df).rows,
        reqKey (ensure_columns df).cols row ≠ "" →
        reqKey (ensure_columns df).cols row ≠ "nan" →
          (reqKey (ensure_columns df).cols row, (ensure_columns df).cols.zip row)
            ∈ save_orders_writes df)
    ∧ save_orders_writes df
        = ((ensure_columns df).rows.filter (fun row =>
            !(reqKey (ensure_columns df).cols row = ""
              || reqKey (ensure_columns df).cols row = "nan"))).map
          (fun row => (reqKey (ensure_columns df).cols row,
            (ensure_columns df).cols.zip row)) := by
  intro df
  refine ⟨?_, ?_, save_orders_writes_eq df⟩
  · intro w hw
    obtain ⟨row, _, rfl, h1, h2⟩ := save_writes_mem hw
    exact ⟨h1, h2⟩
  · intro row hrow h1 h2
    rw [save_orders_writes_eq]
    exact List.mem_map.2 ⟨row,
      List.mem_filter.2 ⟨hrow, by simp [h1, h2]⟩, rfl⟩

/-- Claim C7 witness: a batch with one null-keyed row and one good row
produces exactly the good write. -/
theorem save_orders_skips_witness :
    ("REQ-2025-0001",
        (ensure_columns { cols := ["REQ#"], rows := [[none], [some "REQ-2025-0001"]] }).cols.zip
          (normRow { cols := ["REQ#"], rows := [[none], [some "REQ-2025-0001"]] }
            [some "REQ-2025-0001"]))
      ∈ save_orders_writes { cols := ["REQ#"], rows := [[none], [some "REQ-2025-0001"]] } :=
  (save_orders_skips { cols := ["REQ#"], rows := [[none], [some "REQ-2025-0001"]] }).2.1
    (normRow { cols := ["REQ#"], rows := [[none], [some "REQ-2025-0001"]] }
      [some "REQ-2025-0001"])
    (by decide) (by decide) (by decide)

/-- Claim C8: every document written carries exactly the canonical field
names (a null marker is written as an explicit null field, never omitted),
and after the merge upsert the value of every canonical field of a written
key is fully determined by the save — independent of the prior store
contents — and present. -/
theorem save_orders_overwrites : ∀ df : DFrame,
    (∀ w ∈ save_orders_writes df, w.2.map Prod.fst = REQUIRED_COLUMNS)
    ∧ (∀ w ∈ save_orders_writes df, ∀ c ∈ REQUIRED_COLUMNS,
        ∃ v : Cell, w.2.lookup c = some v)
    ∧ (∀ st st2 : RemoteStore, ∀ k, k ∈ (save_orders_writes df).map Prod.fst →
        ∀ c ∈ REQUIRED_COLUMNS,
          save_orders_remote st df k c = save_orders_remote st2 df k c
          ∧ (save_orders_remote st df k c).isSome = true) := by
  intro df
  refine ⟨save_writes_doc_cols df, ?_, ?_⟩
  · intro w hw c hc
    exact Option.isSome_iff_exists.1 (save_writes_lookup df w hw c hc)
  · intro st st2 k hk c hc
    exact commitBatch_full (save_orders_writes df) st st2 k c
      (fun w hw => save_writes_lookup df w hw c hc) hk

/-- Claim C8 witness: on a concrete save, the resulting value at a written
key and canonical field is the same over an empty prior store and over a
store holding a stale document, and is present. -/
theorem save_orders_overwrites_witness :
    (save_orders_remote (fun _ _ => none)
        { cols := ["REQ#"], rows := [[some "REQ-2025-0001"]] } "REQ-2025-0001" "NOTES"
      = save_orders_remote (fun _ _ => some (some "stale"))
        { cols := ["REQ#"], rows := [[some "REQ-2025-0001"]] } "REQ-2025-0001" "NOTES")
    ∧ (save_orders_remote (fun _ _ => none)
        { cols := ["REQ#"], rows := [[some "REQ-2025-0001"]] } "REQ-2025-0001" "NOTES").isSome
      = true :=
  (save_orders_overwrites { cols := ["REQ#"], rows := [[some "REQ-2025-0001"]] }).2.2
    (fun _ _ => none) (fun _ _ => some (some "stale")) "REQ-2025-0001"
    (by decide) "NOTES" (by decide)

/-! ## Claim theorem: `save_orders` does not mutate its argument (C10) -/

/-- Claim C10: in the heap model, `save_orders` leaves the caller's frame
untouched (its columns and values after the call are those before), and its
result is a pure function of that frame — because normalization, which does
add columns in place, is applied to a copy; the second part exhibits that
in-place normalization does mutate its target, so the copy is what protects
the argument. -/
theorem save_orders_no_mutation :
    (∀ (h : Heap) (i : Nat), i < h.length →
      (save_orders_ref h i).1.getD i { cols := [], rows := [] }
          = h.getD i { cols := [], rows := [] }
      ∧ (save_orders_ref h i).2
          = save_orders_writes (h.getD i { cols := [], rows := [] }))
    ∧ (∃ (h : Heap) (i : Nat), i < h.length ∧
        (ensure_columns_ref h i).1.getD i { cols := [], rows := [] }
          ≠ h.getD i { cols := [], rows := [] }) := by
  constructor
  · intro h i hi
    refine ⟨?_, rfl⟩
    show ((h ++ [h.getD i { cols := [], rows := [] }]).set h.length _).getD i _
        = h.getD i { cols := [], rows := [] }
    rw [List.getD_eq_getElem?_getD,
      List.getElem?_set_ne (show h.length ≠ i by omega),
      List.getElem?_append_left hi, ← List.getD_eq_getElem?_getD]
  · exact ⟨[{ cols := [], rows := [] }], 0, by decide, by decide⟩

/-- Claim C10 witness: a concrete one-frame heap is unchanged at the
argument's reference by `save_orders`. -/
theorem save_orders_no_mutation_witness :
    (save_orders_ref [{ cols := ["REQ#"], rows := [[some "REQ-2025-0001"]] }] 0).1.getD 0
        { cols := [], rows := [] }
      = ([{ cols := ["REQ#"], rows := [[some "REQ-2025-0001"]] }] : Heap).getD 0
        { cols := [], rows := [] } :=
  ((save_orders_no_mutation.1 [{ cols := ["REQ#"], rows := [[some "REQ-2025-0001"]] }] 0
    (by decide)).1)

/-! ## Claim theorems: `compute_total` (C5) -/

/-- Claim C5 counterexample: `compute_total(3, 19.995)` is **not** 59.99:
it differs both from the binary64 value of the literal `59.99` (the value
Python would print/compare) and from the exact rational 59.99.  The
binary64 product `3 * 19.995` is strictly below 59.985, so rounding —
whether half-up or Python's half-even — goes down to 59.98. -/
theorem compute_total_19995_ne :
    ¬ (compute_total (PyVal.num ⟨3, 1⟩) (PyVal.num (floatLit 19995 3))).eqv
        (floatLit 5999 2)
    ∧ ¬ (compute_total (PyVal.num ⟨3, 1⟩) (PyVal.num (floatLit 19995 3))).eqv
        ⟨5999, 100⟩ := by
  constructor
  · decide
  · decide

/-- Claim C5 amended: `compute_total` multiplies the two values as IEEE
binary64 doubles and applies Python's `round(..., 2)` (round half to even
on the exact binary value); `compute_total(3, 19.995)` therefore returns
59.98 (not 59.99, and not by half-up rounding); non-numeric input does not
raise and yields `0.0`. -/
theorem compute_total_spec :
    (∀ a b : Qr, compute_total (PyVal.num a) (PyVal.num b) = pyRound2 (fmul a b))
    ∧ (compute_total (PyVal.num ⟨3, 1⟩) (PyVal.num (floatLit 19995 3))).eqv
        (floatLit 5998 2)
    ∧ compute_total (PyVal.str "x") (PyVal.num ⟨5, 1⟩) = ⟨0, 1⟩
    ∧ (∀ v w : PyVal, pyFloat v = none → compute_total v w = ⟨0, 1⟩)
    ∧ (∀ v w : PyVal, pyFloat w = none → compute_total v w = ⟨0, 1⟩) := by
  refine ⟨fun a b => rfl, by decide, by decide, ?_, ?_⟩
  · intro v w h
    cases hw : pyFloat w <;> simp [compute_total, h, hw]
  · intro v w h
    cases hv : pyFloat v <;> simp [compute_total, h, hv]

/-- Claim C5 witness: `float(None)` raises, so `compute_total(None, 1)`
falls back to `0.0`. -/
theorem compute_total_spec_witness :
    compute_total PyVal.none_ (PyVal.num ⟨1, 1⟩) = ⟨0, 1⟩ :=
  compute_total_spec.2.2.2.1 PyVal.none_ (PyVal.num ⟨1, 1⟩) rfl

/-! ## Claim theorems: `validate_order` (C6) -/

/-- "Null or blank after trimming", the condition of the claim's rules 1
and 4. -/
def missingStr : Option String → Bool
  | none => true
  | some s => stripStr s = ""

/-- The claim's rule list, checked in the order item, quantity, price,
vendor, first failure winning. -/
def validate_rules (item : Option String) (qty price : PyVal)
    (vendor : Option String) : Bool × String :=
  if missingStr item then (false, "ITEM is required.")
  else
    match pyFloat qty with
    | none => (false, "NUMBER OF ITEM must be a number.")
    | some q =>
      if q.isNeg then (false, "NUMBER OF ITEM must be >= 0.")
      else
        match pyFloat price with
        | none => (false, "AMOUNT PER ITEM must be a number.")
        | some p =>
          if p.isNeg then (false, "AMOUNT PER ITEM must be >= 0.")
          else if missingStr vendor then (false, "VENDOR is required.")
          else (true, "")

lemma falsy_or_blank (v : Option String) :
    (!truthyOpt v || stripStr (strOfOpt v) = "") = missingStr v := by
  cases v with
  | none => decide
  | some s =>
    by_cases hs : s = ""
    · subst hs; decide
    · simp [truthyOpt, strOfOpt, missingStr, hs]

/-- Claim C6: `validate_order` checks its rules in the order item,
quantity, price, vendor, first failure winning, with exactly the claimed
messages, never raising (every branch is a returned pair): it agrees
everywhere with the claim's rule list, and on the claimed inputs returns
the claimed results — in particular `validate("Tubes", -1, 1, "")`
reports the quantity error, not the vendor error. -/
theorem validate_order_spec :
    (∀ (item : Option String) (qty price : PyVal) (vendor : Option String),
        validate_order item qty price vendor = validate_rules item qty price vendor)
    ∧ validate_order (some "Tubes") (PyVal.num ⟨-1, 1⟩) (PyVal.num ⟨1, 1⟩) (some "")
        = (false, "NUMBER OF ITEM must be >= 0.")
    ∧ validate_order (some "") (PyVal.num ⟨1, 1⟩) (PyVal.num ⟨1, 1⟩) (some "Acme")
        = (false, "ITEM is required.")
    ∧ validate_order (some "Tubes") (PyVal.num ⟨-1, 1⟩) (PyVal.num ⟨1, 1⟩) (some "Acme")
        = (false, "NUMBER OF ITEM must be >= 0.")
    ∧ validate_order (some "Tubes") (PyVal.num ⟨1, 1⟩) (PyVal.num ⟨1, 1⟩) (some "")
        = (false, "VENDOR is required.")
    ∧ validate_order (some "Tubes") (PyVal.num ⟨1, 1⟩) (PyVal.num ⟨1, 1⟩) (some "Acme")
        = (true, "") := by
  refine ⟨?_, by decide, by decide, by decide, by decide, by decide⟩
  intro item qty price vendor
  simp only [validate_order, validate_rules, falsy_or_blank]

end Requiva
